import Mathlib

/-!
Verification of the Think Node normalization/ranking pipeline.

Shallow embedding of the data-shaping core of `src/app3.py`:
the YouTube video normalizer and ranking (`fetch_youtube_videos`),
the Instagram URL validator (`is_valid_instagram_url`), the
SerpAPI result loop (`fetch_instagram_with_serpapi`), and the
summary statistics of `display_youtube_results`.

Machine integers are modelled as `ℤ`/`ℕ`; Python floats are modelled
exactly over `ℚ` (Python `round(x, 2)` becomes round-half-to-even over
`ℚ`); Python exceptions become `Except String`.
-/

set_option maxRecDepth 20000

namespace ThinkNode

deriving instance DecidableEq for Except

/-- A scalar JSON value as it may appear in an API statistics payload:
either a string (YouTube returns counts as decimal strings) or an integer. -/
inductive JVal where
  | str (s : String)
  | num (n : ℤ)
deriving DecidableEq

/-- Value of a list of decimal digit characters, most significant first. -/
def digitsVal (l : List Char) : ℕ :=
  l.foldl (fun a c => a * 10 + (c.toNat - 48)) 0

/-- Python `int(s)` on a string: an optional sign followed by a nonempty
run of digits parses to the signed value; anything else raises `ValueError`. -/
def pyIntChars : List Char → Except String ℤ
  | [] => .error "invalid literal for int"
  | '-' :: rest =>
    if rest ≠ [] ∧ rest.all Char.isDigit then .ok (-(digitsVal rest : ℤ))
    else .error "invalid literal for int"
  | '+' :: rest =>
    if rest ≠ [] ∧ rest.all Char.isDigit then .ok (digitsVal rest : ℤ)
    else .error "invalid literal for int"
  | l =>
    if l.all Char.isDigit ∧ l ≠ [] then .ok (digitsVal l : ℤ)
    else .error "invalid literal for int"

/-- Python `int(x)` applied to a JSON scalar: integers pass through,
strings are parsed. Models `int(statistics.get(..., 0))` in app3.py. -/
def pyInt : JVal → Except String ℤ
  | .num n => .ok n
  | .str s => pyIntChars s.data

/-- Round a rational to the nearest integer, ties to even
(the rounding used by Python `round`). -/
def roundHalfEven (q : ℚ) : ℤ :=
  let n := ⌊q⌋
  let f := q - (n : ℚ)
  if f < 1/2 then n
  else if 1/2 < f then n + 1
  else if n % 2 = 0 then n else n + 1

/-- Python `round(q, 2)` modelled exactly over `ℚ`. -/
def round2 (q : ℚ) : ℚ := ((roundHalfEven (q * 100) : ℤ) : ℚ) / 100

/-- The thumbnail variants a YouTube search item may offer
(`snippet["thumbnails"]`), each an optional URL. -/
structure Thumbnails where
  thumbDefault : Option String := none
  medium : Option String := none
  high : Option String := none
  standard : Option String := none
  maxres : Option String := none
deriving DecidableEq

/-- The `snippet` part of a YouTube search item: every field may be absent. -/
structure Snippet where
  title : Option String := none
  channelTitle : Option String := none
  publishedAt : Option String := none
  description : Option String := none
  thumbnails : Thumbnails := {}
deriving DecidableEq

/-- The `statistics` part of a YouTube videos().list item:
raw counts, possibly absent, string or number valued. -/
structure Statistics where
  viewCount : Option JVal := none
  likeCount : Option JVal := none
  commentCount : Option JVal := none
deriving DecidableEq

/-- The normalized video record built by `fetch_youtube_videos` (app3.py
lines 175-186), one dict per raw item. -/
structure VideoRecord where
  title : String
  link : String
  thumbnail : String
  channel : String
  published_at : String
  views : ℤ
  likes : ℤ
  comments : ℤ
  engagement_rate : ℚ
  description : String
deriving DecidableEq

/-- The per-item body of the loop in `fetch_youtube_videos`
(app3.py lines 164-186): convert the raw counts with `int(...)`
(defaulting absent fields to `0`), compute the engagement rate
(`0` when `views` is not positive, else `(likes+comments)/views*100`),
round it to two decimals, pick the `high` thumbnail variant's URL
(empty string when absent), default the text fields, and truncate
descriptions longer than 200 characters to their first 200 characters
plus `"..."`. A `ValueError` from `int(...)` propagates as `.error`. -/
def normalizeVideo (videoId : String) (snip : Snippet) (stats : Statistics) :
    Except String VideoRecord :=
  match pyInt (stats.viewCount.getD (.num 0)),
        pyInt (stats.likeCount.getD (.num 0)),
        pyInt (stats.commentCount.getD (.num 0)) with
  | .ok views, .ok likes, .ok comments =>
    let engagement_rate : ℚ :=
      if views > 0 then (((likes : ℚ) + (comments : ℚ)) / (views : ℚ)) * 100 else 0
    .ok { title := snip.title.getD "Untitled"
          link := "https://www.youtube.com/watch?v=" ++ videoId
          thumbnail := snip.thumbnails.high.getD ""
          channel := snip.channelTitle.getD "Unknown Channel"
          published_at := snip.publishedAt.getD ""
          views := views
          likes := likes
          comments := comments
          engagement_rate := round2 engagement_rate
          description :=
            (let d := snip.description.getD ""
             if d.length > 200 then String.mk (d.data.take 200) ++ "..." else d) }
  | .error e, _, _ => .error e
  | .ok _, .error e, _ => .error e
  | .ok _, .ok _, .error e => .error e

/-- One raw YouTube search item: `item["id"]["kind"]`, `item["id"]["videoId"]`,
and `item["snippet"]`. -/
structure SearchItem where
  idKind : String
  videoId : String
  snippet : Snippet
deriving DecidableEq

/-- The per-item loop of `fetch_youtube_videos` (app3.py lines 162-186):
items whose id kind is not `youtube#video` are skipped, every other item is
normalized; the first exception aborts the loop (Python semantics: the
`ValueError` escapes the `for` and is caught by the function's handler).
`statsDict` models `stats_dict.get(video_id, {}).get("statistics", {})`
(absent entries collapse to the all-defaults statistics). -/
def processItems : List SearchItem → (String → Statistics) → Except String (List VideoRecord)
  | [], _ => .ok []
  | it :: rest, statsDict =>
    if it.idKind = "youtube#video" then
      match normalizeVideo it.videoId it.snippet (statsDict it.videoId) with
      | .ok v =>
        match processItems rest statsDict with
        | .ok vs => .ok (v :: vs)
        | .error e => .error e
      | .error e => .error e
    else processItems rest statsDict

/-- Stable insertion of a record into a list already sorted descending by
`views`: skip over strictly larger view counts, so an inserted element lands
after earlier elements with greater counts and before later elements with
equal or smaller counts. -/
def insertVid (x : VideoRecord) : List VideoRecord → List VideoRecord
  | [] => [x]
  | y :: ys => if x.views < y.views then y :: insertVid x ys else x :: y :: ys

/-- `sorted(videos, key=lambda x: x["views"], reverse=True)` (app3.py line
188): a stable sort descending by view count. Stable sorts for a fixed key
are extensionally unique, so the insertion-sort formulation is faithful to
Python's timsort. -/
def rankVideos : List VideoRecord → List VideoRecord
  | [] => []
  | x :: xs => insertVid x (rankVideos xs)

/-- `fetch_youtube_videos` after the API responses are in hand (app3.py
lines 162-201): normalize every video item and return them sorted by views
descending; any exception is caught and yields the empty list. -/
def fetch_youtube_videos (items : List SearchItem) (statsDict : String → Statistics) :
    List VideoRecord :=
  match processItems items statsDict with
  | .ok vs => rankVideos vs
  | .error _ => []

lemma mem_insertVid (x z : VideoRecord) (l : List VideoRecord) :
    z ∈ insertVid x l ↔ z = x ∨ z ∈ l := by
  induction l with
  | nil => simp [insertVid]
  | cons y ys ih =>
    by_cases h : x.views < y.views
    · simp only [insertVid, if_pos h, List.mem_cons, ih]
      tauto
    · simp only [insertVid, if_neg h, List.mem_cons]

lemma pairwise_insertVid (x : VideoRecord) (l : List VideoRecord)
    (h : l.Pairwise (fun a b => b.views ≤ a.views)) :
    (insertVid x l).Pairwise (fun a b => b.views ≤ a.views) := by
  induction l with
  | nil => simp [insertVid]
  | cons y ys ih =>
    rcases List.pairwise_cons.mp h with ⟨hy, hys⟩
    by_cases hlt : x.views < y.views
    · rw [insertVid, if_pos hlt]
      refine List.pairwise_cons.mpr ⟨?_, ih hys⟩
      intro z hz
      rcases (mem_insertVid x z ys).mp hz with rfl | hz2
      · exact le_of_lt hlt
      · exact hy z hz2
    · rw [insertVid, if_neg hlt]
      refine List.pairwise_cons.mpr ⟨?_, h⟩
      intro z hz
      rcases List.mem_cons.mp hz with rfl | hz2
      · exact le_of_not_lt hlt
      · exact le_trans (hy z hz2) (le_of_not_lt hlt)

lemma filter_insertVid (x : VideoRecord) (l : List VideoRecord) (v : ℤ) :
    (insertVid x l).filter (fun r => decide (r.views = v)) =
      if x.views = v then x :: l.filter (fun r => decide (r.views = v))
      else l.filter (fun r => decide (r.views = v)) := by
  induction l with
  | nil =>
    by_cases hxv : x.views = v <;> simp [insertVid, hxv]
  | cons y ys ih =>
    by_cases hlt : x.views < y.views
    · rw [insertVid, if_pos hlt]
      by_cases hxv : x.views = v
      · have hyv : ¬ (y.views = v) := by omega
        simp [List.filter_cons, hxv, hyv, ih]
      · simp [List.filter_cons, hxv, ih]
    · rw [insertVid, if_neg hlt]
      by_cases hxv : x.views = v <;> simp [List.filter_cons, hxv]

lemma rankVideos_sorted (l : List VideoRecord) :
    (rankVideos l).Pairwise (fun a b => b.views ≤ a.views) := by
  induction l with
  | nil => simp [rankVideos]
  | cons x xs ih => exact pairwise_insertVid x _ ih

lemma rankVideos_filter (l : List VideoRecord) (v : ℤ) :
    (rankVideos l).filter (fun r => decide (r.views = v)) =
      l.filter (fun r => decide (r.views = v)) := by
  induction l with
  | nil => rfl
  | cons x xs ih =>
    rw [rankVideos, filter_insertVid]
    by_cases hxv : x.views = v <;> simp [List.filter_cons, hxv, ih]

/-- A minimal video record with the given title and view count, used for
concrete ranking scenarios. -/
def vidOf (t : String) (v : ℤ) : VideoRecord :=
  { title := t, link := "", thumbnail := "", channel := "", published_at := "",
    views := v, likes := 0, comments := 0, engagement_rate := 0, description := "" }

lemma round2_zero : round2 0 = 0 := by
  norm_num [round2, roundHalfEven]

/-- C1: for every likes, comments, views (non-negative integers), the
constructed VideoRecord's engagement rate is exactly 0 when views = 0,
and `round((likes+comments)/views*100, 2)` (round-half-to-even, as Python
`round` does) when views > 0. -/
theorem c1_engagement_rate (videoId : String) (snip : Snippet)
    (likes comments views : ℕ) :
    ∃ r, normalizeVideo videoId snip
        { viewCount := some (.num (views : ℤ)), likeCount := some (.num (likes : ℤ)),
          commentCount := some (.num (comments : ℤ)) } = .ok r ∧
      r.engagement_rate =
        if views = 0 then 0
        else round2 ((((likes : ℚ) + (comments : ℚ)) / (views : ℚ)) * 100) := by
  refine ⟨_, rfl, ?_⟩
  show round2 (if ((views : ℤ) > 0) then
        ((((likes : ℤ) : ℚ) + ((comments : ℤ) : ℚ)) / (((views : ℤ)) : ℚ)) * 100 else 0) = _
  rcases Nat.eq_zero_or_pos views with h | h
  · subst h
    simp [round2_zero]
  · have hzpos : (0 : ℤ) < (views : ℤ) := by exact_mod_cast h
    rw [if_pos hzpos, if_neg (Nat.pos_iff_ne_zero.mp h)]
    congr 1

/-- C2: rankVideos (applied to the normalized collection before it is
returned) is a stable sort descending by view count: the output is sorted
with non-increasing views, records with equal view count keep their input
order (the subsequence at every view value is preserved), and the
[100, 500, 500] scenario yields [500(second), 500(third), 100(first)]. -/
theorem c2_rankVideos_stable (l : List VideoRecord) (v : ℤ) :
    (rankVideos l).Pairwise (fun a b => b.views ≤ a.views) ∧
    (rankVideos l).filter (fun r => decide (r.views = v)) =
      l.filter (fun r => decide (r.views = v)) ∧
    rankVideos [vidOf "first" 100, vidOf "second" 500, vidOf "third" 500] =
      [vidOf "second" 500, vidOf "third" 500, vidOf "first" 100] :=
  ⟨rankVideos_sorted l, rankVideos_filter l v, by decide⟩

/-- An all-defaults snippet, used for concrete normalizer inputs. -/
def snipEmpty : Snippet := {}

/-- A well-formed search item whose statistics are well-formed in
`exampleStats`. -/
def goodItem : SearchItem :=
  { idKind := "youtube#video", videoId := "good", snippet := {} }

/-- A search item whose statistics carry a non-numeric `likeCount` in
`exampleStats`. -/
def badItem : SearchItem :=
  { idKind := "youtube#video", videoId := "bad", snippet := {} }

/-- A statistics map with one well-formed entry and one whose `likeCount`
is a non-numeric string. -/
def exampleStats : String → Statistics := fun vid =>
  if vid = "bad" then { likeCount := some (.str "many") }
  else { viewCount := some (.num 10) }

/-- C4, counterexample: a batch with one well-formed and one malformed item
returns the empty list — the well-formed item is NOT returned, although it
is returned when the malformed item is absent. This refutes the claim that
a single malformed item is degraded or dropped without aborting the rest of
the batch. -/
theorem c4_counterexample :
    fetch_youtube_videos [goodItem, badItem] exampleStats = [] ∧
    (fetch_youtube_videos [goodItem] exampleStats).length = 1 := by
  constructor
  · decide
  · decide

/-- C4, amended: numeric statistics fields that are missing default to 0
(an entry lacking likeCount and commentCount yields likes = 0, comments = 0,
engagement rate = 0, with no error); but an item whose count is malformed
aborts the whole batch — the exception is caught at the fetch boundary and
the empty list is returned, so the remaining well-formed items are lost. -/
theorem c4_amended :
    (∀ (videoId : String) (snip : Snippet) (n : ℤ),
      ∃ r, normalizeVideo videoId snip
          { viewCount := some (.num n), likeCount := none, commentCount := none } = .ok r ∧
        r.likes = 0 ∧ r.comments = 0 ∧ r.engagement_rate = 0) ∧
    (∀ (items : List SearchItem) (statsDict : String → Statistics) (e : String),
      processItems items statsDict = .error e →
        fetch_youtube_videos items statsDict = []) := by
  constructor
  · intro videoId snip n
    refine ⟨_, rfl, rfl, rfl, ?_⟩
    show round2 (if (n > 0) then ((((0 : ℤ) : ℚ) + ((0 : ℤ) : ℚ)) / ((n : ℤ) : ℚ)) * 100 else 0) = 0
    have harg : (if (n > 0) then ((((0 : ℤ) : ℚ) + ((0 : ℤ) : ℚ)) / ((n : ℤ) : ℚ)) * 100 else (0 : ℚ)) = 0 := by
      split
      · push_cast
        ring
      · rfl
    rw [harg, round2_zero]
  · intro items statsDict e h
    unfold fetch_youtube_videos
    rw [h]

/-- C4, witness for the amended theorem at concrete inputs. -/
theorem c4_witness :
    fetch_youtube_videos [goodItem, badItem] exampleStats = [] ∧
    (∃ r, normalizeVideo "good" snipEmpty
        { viewCount := some (.num 10), likeCount := none, commentCount := none } = .ok r ∧
      r.likes = 0 ∧ r.comments = 0 ∧ r.engagement_rate = 0) :=
  ⟨c4_amended.2 [goodItem, badItem] exampleStats "invalid literal for int" (by decide),
   c4_amended.1 "good" snipEmpty 10⟩

/-- Python's substring test `sub in s` over char lists: `sub` occurs as a
contiguous run somewhere in `l`. -/
def subOccurs : List Char → List Char → Bool
  | sub, [] => sub.isEmpty
  | sub, c :: cs => sub.isPrefixOf (c :: cs) || subOccurs sub cs

/-- The remainder of `l` after the first occurrence of `"://"` (the
scheme/netloc split of `urllib.parse.urlparse`), or `none` when absent. -/
def afterColonSlashes : List Char → Option (List Char)
  | [] => none
  | c :: cs =>
    if c = ':' ∧ ['/', '/'].isPrefixOf cs then some (cs.drop 2)
    else afterColonSlashes cs

/-- `urlparse(url).path` for char lists: when a `"://"` is present, skip the
netloc (everything up to the first `/`, `?` or `#`) and keep the path up to
the query or fragment; otherwise the whole string up to `?`/`#` is the path. -/
def pathOf (l : List Char) : List Char :=
  match afterColonSlashes l with
  | some rest =>
    (rest.dropWhile (fun c => !(c == '/' || c == '?' || c == '#'))).takeWhile
      (fun c => !(c == '?' || c == '#'))
  | none => l.takeWhile (fun c => !(c == '?' || c == '#'))

/-- `urlparse(url).path` on strings. -/
def urlPath (url : String) : String := String.mk (pathOf url.data)

/-- `urlparse(url).netloc` on strings: the host part after `"://"`, empty
when the URL carries no `"://"`. -/
def urlNetloc (url : String) : String :=
  match afterColonSlashes url.data with
  | some rest => String.mk (rest.takeWhile (fun c => !(c == '/' || c == '?' || c == '#')))
  | none => ""

/-- Strip `pre` from the front of `l`; `some` of the remainder exactly when
`pre` is a prefix of `l`. -/
def stripPref : List Char → List Char → Option (List Char)
  | [], l => some l
  | _ :: _, [] => none
  | p :: ps, c :: cs => if c = p then stripPref ps cs else none

/-- Match the regex tail `[^/]*/?$`: zero or more non-slash characters
followed by at most one final slash. -/
def bodyAux : List Char → Bool
  | [] => true
  | c :: cs => if c = '/' then cs.isEmpty else bodyAux cs

/-- Match the regex tail `[^/]+/?$`: one or more non-slash characters
followed by at most one final slash. -/
def matchBody : List Char → Bool
  | [] => false
  | c :: cs => if c = '/' then false else bodyAux cs

/-- `re.match` for the anchored patterns of `is_valid_instagram_url`:
the fixed prefix `pre` followed by `[^/]+/?$`. -/
def matchPat (pre l : List Char) : Bool :=
  match stripPref pre l with
  | some rest => matchBody rest
  | none => false

/-- The path test of `is_valid_instagram_url` (app3.py lines 277-284):
`any(re.match(pattern, path) for pattern in valid_patterns)` over the four
patterns `^/[^/]+/?$`, `^/p/[^/]+/?$`, `^/reel/[^/]+/?$`, `^/stories/[^/]+/?$`. -/
def pathValid (path : String) : Bool :=
  matchPat "/".data path.data || matchPat "/p/".data path.data ||
  matchPat "/reel/".data path.data || matchPat "/stories/".data path.data

/-- `is_valid_instagram_url` (app3.py lines 268-284): reject the empty URL
and URLs not containing the substring `"instagram.com"` anywhere; otherwise
test the parsed path against the four patterns. -/
def is_valid_instagram_url (url : String) : Bool :=
  if url = "" ∨ ¬ (subOccurs "instagram.com".data url.data = true) then false
  else pathValid (urlPath url)

/-- The content shapes of spec section 4.1. -/
inductive ContentKind where
  | Invalid
  | Profile
  | Post
  | Reel
  | Story
deriving DecidableEq

/-- The section 4.1 classification of a path, realized by the code's four
regex patterns (app3.py lines 277-282, whose comments name the shapes),
checked in the spec's precedence order. -/
def classifyPath (path : String) : ContentKind :=
  if matchPat "/".data path.data then .Profile
  else if matchPat "/p/".data path.data then .Post
  else if matchPat "/reel/".data path.data then .Reel
  else if matchPat "/stories/".data path.data then .Story
  else .Invalid

/-- The section 4.1 classification of a URL: Invalid on an empty URL or one
without the `"instagram.com"` substring (the code's domain test), otherwise
the classification of its parsed path. -/
def classify (url : String) : ContentKind :=
  if url = "" ∨ ¬ (subOccurs "instagram.com".data url.data = true) then .Invalid
  else classifyPath (urlPath url)

/-- `post_type` as computed in `fetch_instagram_with_serpapi` (app3.py line
247): `"Profile" if "/p/" not in url and "/reel/" not in url else "Post"` —
a substring test on the whole URL, not a path classification. -/
def post_type (url : String) : String :=
  if !(subOccurs "/p/".data url.data) && !(subOccurs "/reel/".data url.data) then "Profile"
  else "Post"

/-- One SerpAPI organic result: `link`, `title` and `snippet` may be absent. -/
structure OrganicResult where
  link : Option String := none
  title : Option String := none
  snippet : Option String := none
deriving DecidableEq

/-- The post record appended by `fetch_instagram_with_serpapi`
(app3.py lines 249-255). -/
structure SocialPost where
  url : String
  title : String
  snippet : String
  type : String
  source : String
deriving DecidableEq

/-- Build the post dict from one organic result (app3.py lines 238-255). -/
def mkPost (r : OrganicResult) : SocialPost :=
  let url := r.link.getD ""
  { url := url, title := r.title.getD "", snippet := r.snippet.getD "",
    type := post_type url, source := "SerpAPI" }

/-- The organic-results loop of `fetch_instagram_with_serpapi` (app3.py
lines 234-255): stop once `limit` posts are collected, skip results whose
URL fails `is_valid_instagram_url`, append the rest in encounter order. -/
def instaLoop (limit : ℕ) : List OrganicResult → List SocialPost → List SocialPost
  | [], posts => posts
  | r :: rest, posts =>
    if posts.length ≥ limit then posts
    else if ¬ (is_valid_instagram_url (r.link.getD "") = true) then instaLoop limit rest posts
    else instaLoop limit rest (posts ++ [mkPost r])

/-- `fetch_instagram_with_serpapi` after the SerpAPI response is in hand
(app3.py lines 230-262): run the loop over the organic results. -/
def fetch_instagram_with_serpapi (results : List OrganicResult) (limit : ℕ) :
    List SocialPost :=
  instaLoop limit results []

lemma stripPref_eq_some_iff (pre : List Char) :
    ∀ l r : List Char, stripPref pre l = some r ↔ l = pre ++ r := by
  induction pre with
  | nil =>
    intro l r
    simp [stripPref, eq_comm]
  | cons p ps ih =>
    intro l r
    cases l with
    | nil => simp [stripPref]
    | cons c cs =>
      by_cases hc : c = p
      · subst hc
        simp [stripPref, ih]
      · simp [stripPref, hc, Ne.symm hc]

lemma matchPat_front (pre l : List Char) (h : matchPat pre l = true) :
    pre <+: l := by
  unfold matchPat at h
  cases hS : stripPref pre l with
  | none => rw [hS] at h; cases h
  | some rest =>
    exact ⟨rest, (((stripPref_eq_some_iff pre l rest).mp hS).symm)⟩

lemma tail_getLast_ne (c : Char) (cs : List Char)
    (h : (c :: cs).getLast? ≠ some '/') : cs.getLast? ≠ some '/' := by
  cases cs with
  | nil => simp
  | cons d ds => rw [List.getLast?_cons_cons] at h; exact h

lemma bodyAux_append_slash (l : List Char) (h : l.getLast? ≠ some '/') :
    bodyAux (l ++ ['/']) = bodyAux l := by
  induction l with
  | nil => rfl
  | cons c cs ih =>
    by_cases hc : c = '/'
    · subst hc
      cases cs with
      | nil => exact absurd rfl h
      | cons d ds => simp [bodyAux]
    · simp only [List.cons_append, bodyAux, if_neg hc]
      exact ih (tail_getLast_ne c cs h)

lemma matchBody_append_slash (l : List Char) (h : l.getLast? ≠ some '/') :
    matchBody (l ++ ['/']) = matchBody l := by
  cases l with
  | nil => rfl
  | cons c cs =>
    by_cases hc : c = '/'
    · simp [matchBody, hc]
    · simp only [List.cons_append, matchBody, if_neg hc]
      exact bodyAux_append_slash cs (tail_getLast_ne c cs h)

lemma matchPat_append_slash (pre : List Char) :
    ∀ l : List Char, l.getLast? ≠ some '/' →
      matchPat pre (l ++ ['/']) = matchPat pre l := by
  induction pre with
  | nil =>
    intro l h
    simpa [matchPat, stripPref] using matchBody_append_slash l h
  | cons p ps ih =>
    intro l h
    cases l with
    | nil =>
      by_cases hp : '/' = p
      · subst hp
        cases ps with
        | nil => simp [matchPat, stripPref, matchBody]
        | cons q qs => simp [matchPat, stripPref]
      · simp [matchPat, stripPref, hp]
    | cons c cs =>
      by_cases hc : c = p
      · subst hc
        simpa [matchPat, stripPref] using ih cs (tail_getLast_ne c cs h)
      · simp [matchPat, stripPref, hc]

lemma subOccurs_iff (sub : List Char) :
    ∀ l : List Char, subOccurs sub l = true ↔ sub <:+: l := by
  intro l
  induction l with
  | nil => simp [subOccurs, List.isEmpty_iff]
  | cons c cs ih =>
    rw [subOccurs, Bool.or_eq_true, ih, List.infix_cons_iff, List.isPrefixOf_iff_prefix]

lemma afterColonSlashes_suffix :
    ∀ l r : List Char, afterColonSlashes l = some r → r <:+ l := by
  intro l
  induction l with
  | nil => intro r h; cases h
  | cons c cs ih =>
    intro r h
    rw [afterColonSlashes] at h
    split at h
    · cases h
      exact (List.drop_suffix 2 cs).trans (List.suffix_cons c cs)
    · exact (ih r h).trans (List.suffix_cons c cs)

lemma pathOf_within (l : List Char) : pathOf l <:+: l := by
  unfold pathOf
  cases hA : afterColonSlashes l with
  | none => exact ( List.takeWhile_prefix _).isInfix
  | some rest =>
    have h1 : rest <:+ l := afterColonSlashes_suffix l rest hA
    have h2 := List.dropWhile_suffix (l := rest)
      (p := fun c => !(c == '/' || c == '?' || c == '#'))
    exact (( List.takeWhile_prefix _).isInfix).trans ((h2.trans h1).isInfix)

lemma urlPath_data_within (url : String) : (urlPath url).data <:+: url.data :=
  pathOf_within url.data

lemma bodyAux_iff (l : List Char) :
    bodyAux l = true ↔
      ∃ a : List Char, (∀ c ∈ a, c ≠ '/') ∧ (l = a ∨ l = a ++ ['/']) := by
  induction l with
  | nil =>
    refine iff_of_true rfl ⟨[], by simp, Or.inl rfl⟩
  | cons c cs ih =>
    rw [bodyAux]
    by_cases hc : c = '/'
    · subst hc
      rw [if_pos rfl]
      constructor
      · intro h
        have hcs : cs = [] := by simpa [List.isEmpty_iff] using h
        subst hcs
        exact ⟨[], by simp, Or.inr rfl⟩
      · rintro ⟨a, ha, h | h⟩
        · cases a with
          | nil => exact (List.cons_ne_nil '/' cs h).elim
          | cons b bs =>
            obtain ⟨hb, -⟩ : '/' = b ∧ cs = bs := by simpa using h
            exact absurd hb.symm (ha b (List.mem_cons_self b bs))
        · cases a with
          | nil =>
            have hcs : cs = [] := by simpa using h
            simp [hcs]
          | cons b bs =>
            obtain ⟨hb, -⟩ : '/' = b ∧ cs = bs ++ ['/'] := by simpa using h
            exact absurd hb.symm (ha b (List.mem_cons_self b bs))
    · rw [if_neg hc, ih]
      constructor
      · rintro ⟨a, ha, h | h⟩
        · refine ⟨c :: a, ?_, Or.inl (by rw [h])⟩
          intro d hd
          rcases List.mem_cons.mp hd with rfl | hd2
          · exact hc
          · exact ha d hd2
        · refine ⟨c :: a, ?_, Or.inr (by rw [h]; rfl)⟩
          intro d hd
          rcases List.mem_cons.mp hd with rfl | hd2
          · exact hc
          · exact ha d hd2
      · rintro ⟨a, ha, h | h⟩
        · cases a with
          | nil => exact (List.cons_ne_nil c cs h).elim
          | cons b bs =>
            obtain ⟨-, hcs⟩ : c = b ∧ cs = bs := by simpa using h
            exact ⟨bs, fun d hd => ha d (List.mem_cons_of_mem _ hd), Or.inl hcs⟩
        · cases a with
          | nil =>
            obtain ⟨hce, -⟩ : c = '/' ∧ cs = [] := by simpa using h
            exact absurd hce hc
          | cons b bs =>
            obtain ⟨-, hcs⟩ : c = b ∧ cs = bs ++ ['/'] := by simpa using h
            exact ⟨bs, fun d hd => ha d (List.mem_cons_of_mem _ hd), Or.inr hcs⟩

lemma matchBody_iff (l : List Char) :
    matchBody l = true ↔
      ∃ seg : List Char, seg ≠ [] ∧ (∀ c ∈ seg, c ≠ '/') ∧
        (l = seg ∨ l = seg ++ ['/']) := by
  cases l with
  | nil =>
    refine iff_of_false (by simp [matchBody]) ?_
    rintro ⟨seg, hne, _, h | h⟩
    · exact hne h.symm
    · exact absurd h.symm (by simp)
  | cons c cs =>
    rw [matchBody]
    by_cases hc : c = '/'
    · subst hc
      rw [if_pos rfl]
      refine iff_of_false (by simp) ?_
      rintro ⟨seg, hne, hns, h | h⟩
      · cases seg with
        | nil => exact hne rfl
        | cons b bs =>
          obtain ⟨hb, -⟩ : '/' = b ∧ cs = bs := by simpa using h
          exact absurd hb.symm (hns b (List.mem_cons_self b bs))
      · cases seg with
        | nil => exact hne rfl
        | cons b bs =>
          obtain ⟨hb, -⟩ : '/' = b ∧ cs = bs ++ ['/'] := by simpa using h
          exact absurd hb.symm (hns b (List.mem_cons_self b bs))
    · rw [if_neg hc, bodyAux_iff]
      constructor
      · rintro ⟨a, ha, h | h⟩
        · refine ⟨c :: a, by simp, ?_, Or.inl (by rw [h])⟩
          intro d hd
          rcases List.mem_cons.mp hd with rfl | hd2
          · exact hc
          · exact ha d hd2
        · refine ⟨c :: a, by simp, ?_, Or.inr (by rw [h]; rfl)⟩
          intro d hd
          rcases List.mem_cons.mp hd with rfl | hd2
          · exact hc
          · exact ha d hd2
      · rintro ⟨seg, hne, hns, h | h⟩
        · cases seg with
          | nil => exact absurd rfl hne
          | cons b bs =>
            obtain ⟨-, hcs⟩ : c = b ∧ cs = bs := by simpa using h
            exact ⟨bs, fun d hd => hns d (List.mem_cons_of_mem _ hd), Or.inl hcs⟩
        · cases seg with
          | nil =>
            obtain ⟨hce, -⟩ : c = '/' ∧ cs = [] := by simpa using h
            exact absurd hce hc
          | cons b bs =>
            obtain ⟨-, hcs⟩ : c = b ∧ cs = bs ++ ['/'] := by simpa using h
            exact ⟨bs, fun d hd => hns d (List.mem_cons_of_mem _ hd), Or.inr hcs⟩

lemma matchPat_iff (pre l : List Char) :
    matchPat pre l = true ↔
      ∃ seg : List Char, seg ≠ [] ∧ (∀ c ∈ seg, c ≠ '/') ∧
        (l = pre ++ seg ∨ l = pre ++ seg ++ ['/']) := by
  unfold matchPat
  cases hS : stripPref pre l with
  | none =>
    refine iff_of_false (by simp) ?_
    rintro ⟨seg, _, _, h | h⟩
    · rw [(stripPref_eq_some_iff pre l seg).mpr h] at hS; cases hS
    · rw [(stripPref_eq_some_iff pre l (seg ++ ['/'])).mpr (by
        rw [h, List.append_assoc])] at hS
      cases hS
  | some rest =>
    obtain rfl : l = pre ++ rest := (stripPref_eq_some_iff pre l rest).mp hS
    rw [matchBody_iff]
    constructor
    · rintro ⟨seg, hne, hns, h | h⟩
      · exact ⟨seg, hne, hns, Or.inl (by rw [h])⟩
      · exact ⟨seg, hne, hns, Or.inr (by rw [h, List.append_assoc])⟩
    · rintro ⟨seg, hne, hns, h | h⟩
      · exact ⟨seg, hne, hns, Or.inl (List.append_cancel_left h)⟩
      · exact ⟨seg, hne, hns, Or.inr (List.append_cancel_left (by rw [h, List.append_assoc]))⟩

/-- C3, counterexample: the Story URL `https://instagram.com/stories/alice`
passes the validator and its section 4.1 classification is Story (a
non-Profile kind), yet `post_type` labels it `"Profile"`, not `"Post"` as
the claim requires. -/
theorem c3_counterexample :
    is_valid_instagram_url "https://instagram.com/stories/alice" = true ∧
    classify "https://instagram.com/stories/alice" = ContentKind.Story ∧
    post_type "https://instagram.com/stories/alice" = "Profile" := by
  refine ⟨by decide, by decide, by decide⟩

/-- C3, amended: the content kind is always `"Profile"` or `"Post"`, and it
is `"Post"` exactly when the full URL string contains `"/p/"` or `"/reel/"`
as a substring — so Post and Reel classifications do map to `"Post"`, but
Story URLs are labelled `"Profile"`, and the test inspects the whole URL,
not only which pattern the path matches. -/
theorem c3_amended (url : String) :
    (post_type url = "Profile" ∨ post_type url = "Post") ∧
    (post_type url = "Post" ↔
      (subOccurs "/p/".data url.data = true ∨ subOccurs "/reel/".data url.data = true)) ∧
    ((classify url = ContentKind.Post ∨ classify url = ContentKind.Reel) →
      post_type url = "Post") := by
  refine ⟨?_, ?_, ?_⟩
  · unfold post_type
    split
    · exact Or.inl rfl
    · exact Or.inr rfl
  · unfold post_type
    cases hp : subOccurs "/p/".data url.data <;>
      cases hr : subOccurs "/reel/".data url.data <;> decide
  · intro hcl
    have hocc : subOccurs "/p/".data url.data = true ∨
        subOccurs "/reel/".data url.data = true := by
      unfold classify at hcl
      by_cases hg : url = "" ∨ ¬ (subOccurs "instagram.com".data url.data = true)
      · rw [if_pos hg] at hcl
        rcases hcl with h | h <;> exact ContentKind.noConfusion h
      · rw [if_neg hg] at hcl
        unfold classifyPath at hcl
        by_cases h1 : matchPat "/".data (urlPath url).data = true
        · rw [if_pos h1] at hcl
          rcases hcl with h | h <;> exact ContentKind.noConfusion h
        · rw [if_neg h1] at hcl
          by_cases h2 : matchPat "/p/".data (urlPath url).data = true
          · exact Or.inl ((subOccurs_iff _ url.data).mpr
              ((matchPat_front _ _ h2).isInfix.trans (urlPath_data_within url)))
          · rw [if_neg h2] at hcl
            by_cases h3 : matchPat "/reel/".data (urlPath url).data = true
            · exact Or.inr ((subOccurs_iff _ url.data).mpr
                ((matchPat_front _ _ h3).isInfix.trans (urlPath_data_within url)))
            · rw [if_neg h3] at hcl
              by_cases h4 : matchPat "/stories/".data (urlPath url).data = true
              · rw [if_pos h4] at hcl
                rcases hcl with h | h <;> exact ContentKind.noConfusion h
              · rw [if_neg h4] at hcl
                rcases hcl with h | h <;> exact ContentKind.noConfusion h
    unfold post_type
    rcases hocc with h | h
    · rw [if_neg (by simp [h])]
    · rw [if_neg (by simp [h])]

/-- C3, witness for the amended theorem: a Reel URL is labelled Post. -/
theorem c3_witness :
    classify "https://instagram.com/reel/xyz" = ContentKind.Reel ∧
    post_type "https://instagram.com/reel/xyz" = "Post" :=
  ⟨by decide, (c3_amended "https://instagram.com/reel/xyz").2.2 (Or.inr (by decide))⟩

/-- C5, counterexample: `https://evil.com/p/instagram.com` is accepted by
the validator although its domain (netloc) is `evil.com`, not the Instagram
platform domain — the code tests `"instagram.com" in url` as a substring of
the whole URL, not the domain. -/
theorem c5_counterexample :
    is_valid_instagram_url "https://evil.com/p/instagram.com" = true ∧
    urlNetloc "https://evil.com/p/instagram.com" = "evil.com" := by
  refine ⟨by decide, by decide⟩

/-- C5, amended: a URL is valid exactly when it is nonempty, contains
`"instagram.com"` as a substring anywhere (the domain itself is never
checked), and its parsed path is one of `/segment`, `/p/segment`,
`/reel/segment`, `/stories/segment` — a nonempty slash-free segment after
the fixed prefix, optionally followed by one trailing slash, with no
further path segments. -/
theorem c5_amended (url : String) :
    is_valid_instagram_url url = true ↔
      (url ≠ "" ∧ subOccurs "instagram.com".data url.data = true ∧
        ∃ pre seg : List Char,
          (pre = "/".data ∨ pre = "/p/".data ∨ pre = "/reel/".data ∨
            pre = "/stories/".data) ∧
          seg ≠ [] ∧ (∀ c ∈ seg, c ≠ '/') ∧
          ((urlPath url).data = pre ++ seg ∨
            (urlPath url).data = pre ++ seg ++ ['/'])) := by
  unfold is_valid_instagram_url
  by_cases hg : url = "" ∨ ¬ (subOccurs "instagram.com".data url.data = true)
  · rw [if_pos hg]
    refine iff_of_false (by simp) ?_
    rintro ⟨h1, h2, -⟩
    rcases hg with hg | hg
    · exact h1 hg
    · exact hg h2
  · rw [if_neg hg]
    push_neg at hg
    unfold pathValid
    simp only [Bool.or_eq_true, matchPat_iff]
    constructor
    · rintro (((⟨seg, hne, hns, hc⟩ | ⟨seg, hne, hns, hc⟩) | ⟨seg, hne, hns, hc⟩) |
        ⟨seg, hne, hns, hc⟩)
      · exact ⟨hg.1, hg.2, "/".data, seg, Or.inl rfl, hne, hns, hc⟩
      · exact ⟨hg.1, hg.2, "/p/".data, seg, Or.inr (Or.inl rfl), hne, hns, hc⟩
      · exact ⟨hg.1, hg.2, "/reel/".data, seg, Or.inr (Or.inr (Or.inl rfl)), hne, hns, hc⟩
      · exact ⟨hg.1, hg.2, "/stories/".data, seg, Or.inr (Or.inr (Or.inr rfl)), hne, hns, hc⟩
    · rintro ⟨-, -, pre, seg, (rfl | rfl | rfl | rfl), hne, hns, hc⟩
      · exact Or.inl (Or.inl (Or.inl ⟨seg, hne, hns, hc⟩))
      · exact Or.inl (Or.inl (Or.inr ⟨seg, hne, hns, hc⟩))
      · exact Or.inl (Or.inr ⟨seg, hne, hns, hc⟩)
      · exact Or.inr ⟨seg, hne, hns, hc⟩

/-- C10, counterexample: classification is not invariant under appending a
trailing slash for every path — the URL with path `/u/` classifies as
Profile, but appending a further trailing slash (path `/u//`) classifies as
Invalid. -/
theorem c10_counterexample :
    classify "https://instagram.com/u/" = ContentKind.Profile ∧
    classify ("https://instagram.com/u/" ++ "/") = ContentKind.Invalid := by
  refine ⟨by decide, by decide⟩

/-- C10, amended: for every path that does not already end in a slash,
appending a trailing slash leaves the section 4.1 path classification
unchanged (the regexes tolerate exactly one optional trailing slash). -/
theorem c10_amended (p : String) (h : p.data.getLast? ≠ some '/') :
    classifyPath (p ++ "/") = classifyPath p := by
  have hd : (p ++ "/").data = p.data ++ ['/'] := String.data_append p "/"
  unfold classifyPath
  rw [hd, matchPat_append_slash _ _ h, matchPat_append_slash _ _ h,
    matchPat_append_slash _ _ h, matchPat_append_slash _ _ h]

/-- C10, witness for the amended theorem at the spec's own example. -/
theorem c10_witness :
    ("/u" : String).data.getLast? ≠ some '/' ∧
    classifyPath ("/u" ++ "/") = classifyPath "/u" :=
  ⟨by decide, c10_amended "/u" (by decide)⟩

lemma instaLoop_eq (limit : ℕ) :
    ∀ (rest : List OrganicResult) (acc : List SocialPost), acc.length ≤ limit →
      instaLoop limit rest acc =
        acc ++ (((rest.filter (fun r => is_valid_instagram_url (r.link.getD ""))).map
          mkPost).take (limit - acc.length)) := by
  intro rest
  induction rest with
  | nil => intro acc hacc; simp [instaLoop]
  | cons r rs ih =>
    intro acc hacc
    rw [instaLoop]
    by_cases hfull : acc.length ≥ limit
    · have hz : limit - acc.length = 0 := by omega
      rw [if_pos hfull, hz]
      simp
    · rw [if_neg hfull]
      by_cases hv : is_valid_instagram_url (r.link.getD "") = true
      · rw [if_neg (by simp [hv])]
        rw [ih (acc ++ [mkPost r]) (by simp; omega)]
        rw [List.filter_cons_of_pos (by simpa using hv), List.map_cons]
        have hsplit : limit - acc.length = (limit - (acc ++ [mkPost r]).length) + 1 := by
          simp
          omega
        rw [hsplit, List.take_succ_cons]
        simp
      · rw [if_pos (by simpa using hv)]
        rw [ih acc hacc, List.filter_cons_of_neg (by simpa using hv)]

/-- C7: the social-post fetch returns at most `limit` posts, every returned
post's URL passes the validator (invalid entries are filtered out, not
kept), and the output is a sublist of the input in encounter order
(truncation never reorders). -/
theorem c7_limit_filter_order (results : List OrganicResult) (limit : ℕ) :
    (fetch_instagram_with_serpapi results limit).length ≤ limit ∧
    (∀ p ∈ fetch_instagram_with_serpapi results limit,
      is_valid_instagram_url p.url = true) ∧
    (fetch_instagram_with_serpapi results limit).Sublist (results.map mkPost) := by
  have key : fetch_instagram_with_serpapi results limit =
      ((results.filter (fun r => is_valid_instagram_url (r.link.getD ""))).map
        mkPost).take limit := by
    unfold fetch_instagram_with_serpapi
    simpa using instaLoop_eq limit results [] (by simp)
  refine ⟨?_, ?_, ?_⟩
  · rw [key]
    exact List.length_take_le limit _
  · intro p hp
    rw [key] at hp
    have hp2 := List.take_subset _ _ hp
    rcases List.mem_map.mp hp2 with ⟨r, hr, rfl⟩
    have hval := List.of_mem_filter hr
    simpa [mkPost] using hval
  · rw [key]
    exact (List.take_sublist _ _).trans ((List.filter_sublist _).map mkPost)

/-- An organic result with a valid post URL, for the C7 witness. -/
def exResult : OrganicResult := { link := some "https://instagram.com/p/abc" }

/-- C7, witness at a concrete input. -/
theorem c7_witness :
    (fetch_instagram_with_serpapi [exResult] 6).length ≤ 6 ∧
    is_valid_instagram_url (mkPost exResult).url = true :=
  ⟨(c7_limit_filter_order [exResult] 6).1,
   (c7_limit_filter_order [exResult] 6).2.1 (mkPost exResult) (by decide)⟩

/-- C6: for every description, the normalized record carries exactly the
first 200 characters followed by the `"..."` marker when the description
exceeds 200 characters, and the description unchanged (no marker) when its
length is at most 200, including exactly 200 and the empty string. -/
theorem c6_truncation (videoId : String) (snip : Snippet) (stats : Statistics)
    (r : VideoRecord) (h : normalizeVideo videoId snip stats = .ok r) :
    ((snip.description.getD "").length > 200 →
      r.description = String.mk ((snip.description.getD "").data.take 200) ++ "...") ∧
    ((snip.description.getD "").length ≤ 200 →
      r.description = snip.description.getD "") := by
  unfold normalizeVideo at h
  split at h
  case _ views likes comments heq1 heq2 heq3 =>
    cases h
    constructor
    · intro hlen
      show (if (snip.description.getD "").length > 200 then _ else _) = _
      rw [if_pos hlen]
    · intro hlen
      show (if (snip.description.getD "").length > 200 then _ else _) = _
      rw [if_neg (by omega)]
  case _ => exact Except.noConfusion h
  case _ => exact Except.noConfusion h
  case _ => exact Except.noConfusion h

/-- The description of length 201 for the C6 witness. -/
def dLong : String := String.mk (List.replicate 201 'a')

/-- The record the normalizer produces for `dLong` and empty statistics. -/
def recLong : VideoRecord :=
  { title := "Untitled", link := "https://www.youtube.com/watch?v=x", thumbnail := "",
    channel := "Unknown Channel", published_at := "", views := 0, likes := 0,
    comments := 0, engagement_rate := round2 0,
    description := String.mk (dLong.data.take 200) ++ "..." }

/-- C6, witness: a 201-character description is truncated to its first 200
characters plus the marker. -/
theorem c6_witness :
    dLong.length > 200 ∧
    recLong.description = String.mk (dLong.data.take 200) ++ "..." :=
  ⟨by decide,
   (c6_truncation "x" { description := some dLong } {} recLong rfl).1 (by decide)⟩

/-- The summary aggregate of spec section 4.4 (AnalysisSummary). -/
structure AnalysisSummary where
  count : ℕ
  totalViews : ℤ
  averageViews : ℤ
  averageEngagementRate : ℚ
deriving DecidableEq

/-- The summary block of `display_youtube_results` (app3.py lines 362-365):
`total_views = sum(...)`, `avg_views = total_views // len(videos) if videos
else 0`, `avg_engagement_rate = sum(...) / len(videos) if videos else 0`.
Python `//` on integers is floor division, modelled by `Int.fdiv`; the
engagement mean is true division over ℚ. -/
def summarize (videos : List VideoRecord) : AnalysisSummary :=
  let total_views : ℤ := (videos.map (fun v => v.views)).sum
  { count := videos.length
    totalViews := total_views
    averageViews := if videos.isEmpty then 0 else Int.fdiv total_views (videos.length : ℤ)
    averageEngagementRate :=
      if videos.isEmpty then 0
      else (videos.map (fun v => v.engagement_rate)).sum / (videos.length : ℚ) }

/-- C8: summarize returns count = length, totalViews = sum of views,
averageViews = floor division of the total by the count and
averageEngagementRate = arithmetic mean of the engagement rates for
nonempty collections, and all four fields 0 on the empty collection — the
dividing branch is guarded by the emptiness test, so no division by zero
is ever reached. -/
theorem c8_summarize (videos : List VideoRecord) :
    (summarize videos).count = videos.length ∧
    (summarize videos).totalViews = (videos.map (fun v => v.views)).sum ∧
    (videos ≠ [] →
      (summarize videos).averageViews =
        Int.fdiv ((videos.map (fun v => v.views)).sum) (videos.length : ℤ) ∧
      (summarize videos).averageEngagementRate =
        (videos.map (fun v => v.engagement_rate)).sum / (videos.length : ℚ)) ∧
    summarize [] =
      { count := 0, totalViews := 0, averageViews := 0, averageEngagementRate := 0 } := by
  refine ⟨rfl, rfl, ?_, rfl⟩
  intro hne
  have hempty : videos.isEmpty = false := by
    simpa [List.isEmpty_iff] using hne
  constructor
  · show (if videos.isEmpty then 0 else Int.fdiv _ (videos.length : ℤ)) = _
    rw [hempty]
    rfl
  · show (if videos.isEmpty then 0 else _ / (videos.length : ℚ)) = _
    rw [hempty]
    rfl

/-- C8, witness on a nonempty collection. -/
theorem c8_witness :
    ([vidOf "w" 3] : List VideoRecord) ≠ [] ∧
    (summarize [vidOf "w" 3]).averageViews =
      Int.fdiv (([vidOf "w" 3].map (fun v => v.views)).sum) (([vidOf "w" 3].length : ℕ) : ℤ) :=
  ⟨by simp, ((c8_summarize [vidOf "w" 3]).2.2.1 (by simp)).1⟩

/-- Spec-side definition, following the spec's words for comparison with
the code: the URL of the highest-resolution thumbnail variant offered
(maxres, then standard, high, medium, default), empty string when none is
present. -/
def specHighestThumbnail (t : Thumbnails) : String :=
  ((((t.maxres.or t.standard).or t.high).or t.medium).or t.thumbDefault).getD ""

/-- A snippet offering only the maxres thumbnail variant. -/
def snipMaxOnly : Snippet :=
  { thumbnails := { maxres := some "https://example.com/max.jpg" } }

/-- C9, counterexample: an item that offers only a maxres thumbnail variant
is normalized with an empty thumbnail, not the highest-resolution variant
offered — the code always reads the `high` variant and falls back to the
empty string even when other variants are present. -/
theorem c9_counterexample :
    (normalizeVideo "vid1" snipMaxOnly {}).map (fun r => r.thumbnail) = .ok "" ∧
    specHighestThumbnail snipMaxOnly.thumbnails = "https://example.com/max.jpg" := by
  refine ⟨by decide, by decide⟩

/-- C9, amended: the thumbnail of every normalized record is the URL of the
`high` variant when that variant is present and the empty string otherwise,
regardless of any other variants the item offers. -/
theorem c9_amended (videoId : String) (snip : Snippet) (stats : Statistics)
    (r : VideoRecord) (h : normalizeVideo videoId snip stats = .ok r) :
    r.thumbnail = snip.thumbnails.high.getD "" := by
  unfold normalizeVideo at h
  split at h
  case _ => cases h; rfl
  case _ => exact Except.noConfusion h
  case _ => exact Except.noConfusion h
  case _ => exact Except.noConfusion h

/-- The record the normalizer produces for `snipMaxOnly` and empty
statistics, for the C9 witness. -/
def recMax : VideoRecord :=
  { title := "Untitled", link := "https://www.youtube.com/watch?v=vid1", thumbnail := "",
    channel := "Unknown Channel", published_at := "", views := 0, likes := 0,
    comments := 0, engagement_rate := round2 0, description := "" }

/-- C9, witness for the amended theorem at a concrete input. -/
theorem c9_witness :
    recMax.thumbnail = snipMaxOnly.thumbnails.high.getD "" :=
  c9_amended "vid1" snipMaxOnly {} recMax rfl

end ThinkNode
